import Mathlib

/-!
Verification of the download-move-hash-resume pipeline of
`instagram_forensic_downloader.py`.

The development shallowly embeds the pipeline's functions over an explicit
filesystem state.  Files are finite association lists from paths (lists of
segments) to file data; 32-bit machine arithmetic is `Nat` taken modulo
`2 ^ 32`; fallible operations return `Except` or `Option`; the Python
`try/except` blocks become explicit case analysis on those results.  The
external media source (instaloader) is an oracle: a list of post short
codes together with per-attempt success flags and the files each fetch
stages.  Every run records an event trace (media-source calls, moves,
hash computations, transcodes, log lines) so that temporal claims can be
stated about orderings of those events.
-/

/-! ## MD5 (hashlib.md5)

A complete executable MD5 over byte lists, bytes and 32-bit words both
represented as `Nat` with explicit reduction modulo `2 ^ 32`. -/

/-- Reduce to a 32-bit word. -/
def w32 (n : Nat) : Nat := n % 4294967296

/-- Bitwise complement on 32-bit words (input already below `2 ^ 32`). -/
def wnot (x : Nat) : Nat := 4294967295 - x % 4294967296

/-- Left rotation of a 32-bit word. -/
def rotl32 (x s : Nat) : Nat := ((x <<< s) ||| (x >>> (32 - s))) % 4294967296

/-- The 64 MD5 sine-derived round constants. -/
def md5K : List Nat :=
  [0xd76aa478, 0xe8c7b756, 0x242070db, 0xc1bdceee,
   0xf57c0faf, 0x4787c62a, 0xa8304613, 0xfd469501,
   0x698098d8, 0x8b44f7af, 0xffff5bb1, 0x895cd7be,
   0x6b901122, 0xfd987193, 0xa679438e, 0x49b40821,
   0xf61e2562, 0xc040b340, 0x265e5a51, 0xe9b6c7aa,
   0xd62f105d, 0x02441453, 0xd8a1e681, 0xe7d3fbc8,
   0x21e1cde6, 0xc33707d6, 0xf4d50d87, 0x455a14ed,
   0xa9e3e905, 0xfcefa3f8, 0x676f02d9, 0x8d2a4c8a,
   0xfffa3942, 0x8771f681, 0x6d9d6122, 0xfde5380c,
   0xa4beea44, 0x4bdecfa9, 0xf6bb4b60, 0xbebfbc70,
   0x289b7ec6, 0xeaa127fa, 0xd4ef3085, 0x04881d05,
   0xd9d4d039, 0xe6db99e5, 0x1fa27cf8, 0xc4ac5665,
   0xf4292244, 0x432aff97, 0xab9423a7, 0xfc93a039,
   0x655b59c3, 0x8f0ccc92, 0xffeff47d, 0x85845dd1,
   0x6fa87e4f, 0xfe2ce6e0, 0xa3014314, 0x4e0811a1,
   0xf7537e82, 0xbd3af235, 0x2ad7d2bb, 0xeb86d391]

/-- The 64 MD5 per-round left-rotation amounts. -/
def md5S : List Nat :=
  [7, 12, 17, 22, 7, 12, 17, 22, 7, 12, 17, 22, 7, 12, 17, 22,
   5, 9, 14, 20, 5, 9, 14, 20, 5, 9, 14, 20, 5, 9, 14, 20,
   4, 11, 16, 23, 4, 11, 16, 23, 4, 11, 16, 23, 4, 11, 16, 23,
   6, 10, 15, 21, 6, 10, 15, 21, 6, 10, 15, 21, 6, 10, 15, 21]

/-- MD5 round nonlinear function, selected by round index. -/
def md5F (i b c d : Nat) : Nat :=
  if i < 16 then (b &&& c) ||| (wnot b &&& d)
  else if i < 32 then (d &&& b) ||| (wnot d &&& c)
  else if i < 48 then b ^^^ c ^^^ d
  else c ^^^ (b ||| wnot d)

/-- MD5 message-word index for round `i`. -/
def md5G (i : Nat) : Nat :=
  if i < 16 then i
  else if i < 32 then (5 * i + 1) % 16
  else if i < 48 then (3 * i + 5) % 16
  else (7 * i) % 16

/-- Little-endian 32-bit word `g` of a 64-byte block. -/
def wordAt (block : List Nat) (g : Nat) : Nat :=
  block.getD (4 * g) 0 + 256 * block.getD (4 * g + 1) 0 +
    65536 * block.getD (4 * g + 2) 0 + 16777216 * block.getD (4 * g + 3) 0

/-- One MD5 round on the state quadruple. -/
def md5Round (block : List Nat) (st : Nat × Nat × Nat × Nat) (i : Nat) :
    Nat × Nat × Nat × Nat :=
  let a := st.1
  let b := st.2.1
  let c := st.2.2.1
  let d := st.2.2.2
  let f := w32 (md5F i b c d + a + md5K.getD i 0 + wordAt block (md5G i))
  (d, w32 (b + rotl32 f (md5S.getD i 0)), b, c)

/-- MD5 compression function: one 64-byte block. -/
def md5Step (st : Nat × Nat × Nat × Nat) (block : List Nat) : Nat × Nat × Nat × Nat :=
  let r := (List.range 64).foldl (md5Round block) st
  (w32 (st.1 + r.1), w32 (st.2.1 + r.2.1), w32 (st.2.2.1 + r.2.2.1), w32 (st.2.2.2 + r.2.2.2))

/-- Eight little-endian bytes of the 64-bit message bit length. -/
def lenBytes8 (n : Nat) : List Nat :=
  [n % 256, n / 256 % 256, n / 65536 % 256, n / 16777216 % 256,
   n / 4294967296 % 256, n / 1099511627776 % 256,
   n / 281474976710656 % 256, n / 72057594037927936 % 256]

/-- MD5 padding: `0x80`, zeros to 56 mod 64, then the bit length. -/
def md5Pad (data : List Nat) : List Nat :=
  data ++ [128] ++ List.replicate ((56 + 64 - (data.length + 1) % 64) % 64) 0 ++
    lenBytes8 (data.length * 8)

/-- Split a list into consecutive chunks of `n` elements (fuel-indexed helper). -/
def chunksOfAux (α : Type) (n : Nat) : Nat → List α → List (List α)
  | _, [] => []
  | 0, _ :: _ => []
  | fuel + 1, a :: l => (a :: l).take n :: chunksOfAux α n fuel ((a :: l).drop n)

/-- Split a list into consecutive chunks of `n` elements. -/
def chunksOf {α : Type} (n : Nat) (l : List α) : List (List α) :=
  chunksOfAux α n l.length l

/-- MD5 over all padded blocks from the standard initialization vector. -/
def md5Core (data : List Nat) : Nat × Nat × Nat × Nat :=
  (chunksOf 64 (md5Pad data)).foldl md5Step (0x67452301, 0xefcdab89, 0x98badcfe, 0x10325476)

/-- Four little-endian bytes of a 32-bit word. -/
def wordLE (w : Nat) : List Nat :=
  [w % 256, w / 256 % 256, w / 65536 % 256, w / 16777216 % 256]

/-- The 16-byte MD5 digest of a byte list. -/
def md5Digest (data : List Nat) : List Nat :=
  wordLE (md5Core data).1 ++ wordLE (md5Core data).2.1 ++
    wordLE (md5Core data).2.2.1 ++ wordLE (md5Core data).2.2.2

/-- The sixteen lowercase hexadecimal digits. -/
def hexCharList : List Char := ("0123456789abcdef").data

/-- Hexadecimal digit for `n % 16`. -/
def hexDigit (n : Nat) : Char := hexCharList.getD (n % 16) '0'

/-- Two hexadecimal characters of one byte. -/
def byteHexChars (b : Nat) : List Char := [hexDigit (b / 16), hexDigit b]

/-- Lowercase hexadecimal MD5 digest string, as `hashlib`'s `hexdigest`. -/
def md5hex (data : List Nat) : String :=
  String.mk (((md5Digest data).map byteHexChars).flatten)

/-! ## hashlib incremental-hash object

`hashlib` documents `update` as accumulation: feeding chunks one by one is
feeding their concatenation.  The object state is the accumulated bytes. -/

/-- State of a `hashlib.md5()` object: the bytes fed so far via `update`. -/
structure HashMD5 where
  data : List Nat
deriving DecidableEq

/-- `hashlib.md5()`. -/
def HashMD5.new : HashMD5 := ⟨[]⟩

/-- `update` feeds one more chunk. -/
def HashMD5.update (h : HashMD5) (chunk : List Nat) : HashMD5 := ⟨h.data ++ chunk⟩

/-- `hexdigest`: MD5 of all bytes fed so far. -/
def HashMD5.hexdigest (h : HashMD5) : String := md5hex h.data

/-! ## Configuration (class `Config`) -/

/-- The `Config` dataclass fields used by the pipeline (`RATE_LIMIT_DELAY`
is a float used only for sleeping and is not modelled). -/
structure Config where
  CHUNK_SIZE : Nat := 8192
  MAX_WORKERS : Nat := 3
  RETRY_ATTEMPTS : Nat := 3

/-- The configuration instance built in `InstagramDownloader.__init__`. -/
def config : Config := {}

/-! ## Paths and Python string helpers

Paths are lists of segments; `pathlib` and `os.path` operations used by the
code are modelled segment-wise. -/

/-- `os.path.relpath(path, start)` on segment lists: strip the common
prefix, then one `..` per remaining `start` segment. -/
def relpathAux : List String → List String → List String
  | p :: ps, b :: bs => if p = b then relpathAux ps bs else List.replicate (b :: bs).length ("..") ++ (p :: ps)
  | ps, [] => ps
  | [], b :: bs => List.replicate (b :: bs).length ("..")

/-- Render a segment list with `/` separators. -/
def renderPath (segs : List String) : String := String.intercalate ("/") segs

/-- `pathlib.PurePath.stem` of a file name: the name without its last
suffix, where a suffix requires a dot at an index `i` with
`0 < i < length - 1` (CPython's `rfind` rule). -/
def pathStem (name : String) : String :=
  let cs := name.data
  let dots := (List.range cs.length).filter (fun i => decide (cs.getD i ' ' = '.'))
  match dots.getLast? with
  | none => name
  | some i => if 0 < i ∧ i < cs.length - 1 then String.mk (cs.take i) else name

/-- Python `str.rstrip('/')`: drop trailing slash characters. -/
def rstripSlash (s : String) : String :=
  String.mk ((s.data.reverse.dropWhile (fun c => decide (c = '/'))).reverse)

/-- Python `str.endswith`, via character-list suffix matching (structural,
unlike core `String.endsWith`, so that it evaluates by reduction). -/
def pyEndsWith (s post : String) : Bool := post.data.isSuffixOf s.data

/-- Python `str.startswith`, via character-list prefix matching. -/
def pyStartsWith (s start : String) : Bool := start.data.isPrefixOf s.data

/-- Python `str.split` with a one-character separator, keeping empty
parts (structural helper on character lists). -/
def splitChar (cs : List Char) (sep : Char) : List (List Char) :=
  cs.foldr (fun c acc =>
    match acc with
    | [] => [[c]]
    | g :: rest => if c = sep then [] :: g :: rest else (c :: g) :: rest) [[]]

/-- Python `str.split` with a one-character separator. -/
def pySplit (s : String) (sep : Char) : List String := (splitChar s.data sep).map String.mk

/-! ## JSON metadata documents -/

/-- JSON scalar values as loaded by `json.load` (the fields exercised by
the metadata documents). -/
inductive JsonVal where
  | s (v : String)
  | i (v : Int)
  | b (v : Bool)
  | null
deriving DecidableEq

/-- Python `str()` of a loaded JSON value, as interpolated by the f-string
in `json_to_txt`. -/
def pyStr : JsonVal → String
  | .s v => v
  | .i v => toString v
  | .b true => "True"
  | .b false => "False"
  | .null => "None"

/-- The text produced by the `json_to_txt` write loop: one
`"<key>: <value>"` line per key, in document order. -/
def renderDoc (d : List (String × JsonVal)) : String :=
  d.foldl (fun acc kv => acc ++ kv.1 ++ ": " ++ pyStr kv.2 ++ "\n") ("")

/-! ## Filesystem state -/

/-- Code points of a string, standing in for its encoded bytes. -/
def strBytes (s : String) : List Nat := s.data.map Char.toNat

/-- A depiction of a metadata document's on-disk serialization.  The
pipeline never relates a document's digest to a particular byte layout,
so any injective-enough rendering serves as the stored bytes. -/
def renderJson (d : List (String × JsonVal)) : String :=
  String.intercalate (",") (d.map (fun kv => kv.1 ++ "=" ++ pyStr kv.2))

/-- Contents of one file: raw binary media, a parsed JSON metadata
document, or plain text. -/
inductive FileData where
  | bin (bytes : List Nat)
  | doc (entries : List (String × JsonVal))
  | txt (content : String)
deriving DecidableEq

/-- The byte content of a file, as read by `open(path, "rb")`. -/
def FileData.toBytes : FileData → List Nat
  | .bin bs => bs
  | .doc d => strBytes (renderJson d)
  | .txt s => strBytes s

/-- A filesystem: association list from paths to file data. -/
abbrev FS := List (List String × FileData)

/-- Read the file at a path (first matching entry). -/
def FS.read : FS → List String → Option FileData
  | [], _ => none
  | (q, d) :: rest, p => if q = p then some d else FS.read rest p

/-- Remove every entry at a path. -/
def FS.erase (fs : FS) (p : List String) : FS :=
  fs.filter (fun e => decide (e.1 ≠ p))

/-- `os.listdir`: names of the entries whose parent is `dir`, in
filesystem order. -/
def listdir (fs : FS) (dir : List String) : List String :=
  fs.filterMap (fun e => if e.1.dropLast = dir then e.1.getLast? else none)

/-! ## Run state and event trace -/

/-- Observable events of one run, in order of occurrence. -/
inductive Event where
  | fetchCall (shortcode : String)
  | moved (src dst : List String) (content : FileData)
  | hashed (path : List String) (digest : String)
  | transcoded (src dst : List String)
  | logged (msg : String)
deriving DecidableEq

/-- State threaded through the pipeline: the filesystem, the content of
the manifest file `hash.txt`, and the event trace. -/
structure RunState where
  files : FS
  manifest : String
  events : List Event
deriving DecidableEq

/-! ## The pipeline functions -/

/-- `calculate_md5`: open the file, feed it to `hashlib.md5` in
`CHUNK_SIZE`-byte chunks, return the hex digest; an unreadable path
raises (`IOError`), modelled as `Except.error`. -/
def calculate_md5 (fs : FS) (file_path : List String) : Except String String :=
  match FS.read fs file_path with
  | none => .error ("IOError")
  | some fd =>
    .ok (((chunksOf config.CHUNK_SIZE fd.toBytes).foldl HashMD5.update HashMD5.new).hexdigest)

/-- `write_hash`: compute the digest, compute the path relative to the
manifest's directory, append `"<digest> *<relative-path>\n"` to the
manifest; any failure is caught, logged and reported as `false`. -/
def write_hash (st : RunState) (file_path hash_file : List String) : Bool × RunState :=
  match calculate_md5 st.files file_path with
  | .error _ =>
    (false, { st with events := st.events ++ [.logged ("Errore nel calcolo o salvataggio MD5 per " ++ renderPath file_path)] })
  | .ok dg =>
    let rel := renderPath (relpathAux file_path hash_file.dropLast)
    (true, { st with
      manifest := st.manifest ++ dg ++ " *" ++ rel ++ "\n",
      events := st.events ++ [.hashed file_path dg, .logged ("Hash calcolato e salvato per: " ++ rel)] })

/-- `json_to_txt`: load the JSON document and write one
`"<key>: <value>"` line per key to the destination text file; parse or
read failures are caught and logged, never raised. -/
def json_to_txt (st : RunState) (json_file txt_file : List String) : RunState :=
  match FS.read st.files json_file with
  | some (.doc d) =>
    { st with
      files := FS.erase st.files txt_file ++ [(txt_file, .txt (renderDoc d))],
      events := st.events ++ [.transcoded json_file txt_file, .logged ("File convertito")] }
  | _ => { st with events := st.events ++ [.logged ("Errore nella conversione")] }

/-- `get_downloaded_posts`: the prefix before the first underscore of the
stem of every `*.jpg` file in the posts directory. -/
def get_downloaded_posts (fs : FS) (posts_path : List String) : List String :=
  ((listdir fs posts_path).filter (fun f => pyEndsWith f (".jpg"))).map
    (fun f => (pySplit (pathStem f) '_').headD (""))

/-- Body of the `process_downloaded_files` loop for one directory entry:
move it from staging to the posts directory, then hash it when its name
does not end in `.txt`, otherwise (dead in practice) transcode it when
its name also ends in `.json`; a move failure is caught and logged. -/
def process_one (temp_path posts_path hash_file : List String) (moveOk : String → Bool)
    (st : RunState) (filename : String) : RunState :=
  let src := temp_path ++ [filename]
  let dst := posts_path ++ [filename]
  if moveOk filename then
    match FS.read st.files src with
    | none => { st with events := st.events ++ [.logged ("Errore nello spostamento del file " ++ filename)] }
    | some c =>
      let fs1 := FS.erase (FS.erase st.files src) dst ++ [(dst, c)]
      let st1 : RunState :=
        { st with files := fs1,
                  events := st.events ++ [.moved src dst c, .logged ("File spostato: " ++ filename)] }
      if (FS.read fs1 dst).isSome then
        if ¬ pyEndsWith filename (".txt") then (write_hash st1 dst hash_file).2
        else if pyEndsWith filename (".json") then
          json_to_txt st1 dst (posts_path ++ [pathStem filename ++ ".txt"])
        else st1
      else st1
  else { st with events := st.events ++ [.logged ("Errore nello spostamento del file " ++ filename)] }

/-- `process_downloaded_files`: iterate the staging-directory listing,
moving and hashing/transcoding each entry; per-file failures are caught
inside the loop body. -/
def process_downloaded_files (st : RunState) (temp_path posts_path hash_file : List String)
    (moveOk : String → Bool) : RunState :=
  (listdir st.files temp_path).foldl (process_one temp_path posts_path hash_file moveOk) st

/-! ## URL validation -/

/-- A Python value passed to `validate_profile_url`: a string or a value
of some other type. -/
inductive PyInput where
  | str (s : String)
  | nonStr
deriving DecidableEq

/-- The accepted profile-URL prefixes. -/
def valid_prefixes : List String :=
  ["http://instagram.com/", "https://instagram.com/",
   "http://www.instagram.com/", "https://www.instagram.com/"]

/-- `validate_profile_url`: reject empty or non-string input and any
string without an accepted prefix; otherwise return the last
slash-separated segment after stripping trailing slashes. -/
def validate_profile_url : PyInput → Except String String
  | .nonStr => .error ("URL non valido")
  | .str s =>
    if s = "" then .error ("URL non valido")
    else if ¬ valid_prefixes.any (fun p => pyStartsWith s p) then
      .error ("URL Instagram non valido")
    else .ok ((pySplit (rstripSlash s) '/').getLastD (""))

/-! ## Retry with exponential backoff (tenacity) -/

/-- `tenacity.wait_exponential(multiplier, min, max)`: the delay after
failed attempt `n`, the exponential clamped between the bounds. -/
def wait_exponential (mult minW maxW n : Nat) : Nat :=
  Nat.max minW (Nat.min (mult * 2 ^ n) maxW)

/-- Outcome of a retried call: whether it eventually succeeded, how many
attempts were made, and the backoff delays slept between attempts. -/
structure RetryOutcome where
  ok : Bool
  attempts : Nat
  waits : List Nat
deriving DecidableEq

/-- The `tenacity.retry` loop, fuel-indexed: attempt numbers count from
`n`; stop (re-raising) once `stopN` attempts have been made. -/
def tenacityGo (att : Nat → Bool) (stopN : Nat) (w : Nat → Nat) :
    Nat → Nat → List Nat → RetryOutcome
  | 0, n, ws => ⟨false, n - 1, ws⟩
  | fuel + 1, n, ws =>
    if att n then ⟨true, n, ws⟩
    else if stopN ≤ n then ⟨false, n, ws⟩
    else tenacityGo att stopN w fuel (n + 1) (ws ++ [w n])

/-- `download_post_with_retry`'s retry behaviour: attempts start at 1. -/
def tenacityRun (att : Nat → Bool) (stopN : Nat) (w : Nat → Nat) : RetryOutcome :=
  tenacityGo att stopN w stopN 1 []

/-! ## The orchestrator (`download_profile`) -/

/-- The external media source: the profile's posts in feed order, a
per-post per-attempt success oracle, and the artifacts a successful fetch
leaves in the staging directory. -/
structure MediaSource where
  posts : List String
  att : String → Nat → Bool
  staged : String → List (String × FileData)

/-- The manifest header written when `hash.txt` is truncated. -/
def headerLine : String := "# MD5 hashes dei file scaricati\n"

/-- Handling of one submitted post: run the retried fetch (one media
source call per attempt), stage its files on success or log the failure
after exhaustion, then process the staging directory. -/
def runPost (temp_path posts_path hash_file : List String) (src : MediaSource)
    (moveOk : String → Bool) (st : RunState) (sc : String) : RunState :=
  let oc := tenacityRun (src.att sc) config.RETRY_ATTEMPTS (wait_exponential 1 4 10)
  let st1 : RunState := { st with events := st.events ++ List.replicate oc.attempts (.fetchCall sc) }
  let st2 : RunState :=
    if oc.ok then
      { st1 with files := st1.files ++ (src.staged sc).map (fun fd => (temp_path ++ [fd.1], fd.2)) }
    else
      { st1 with events := st1.events ++ [.logged ("Errore nel download: " ++ sc)] }
  process_downloaded_files st2 temp_path posts_path hash_file moveOk

/-- `download_profile` after URL validation: truncate and
header-initialize the manifest, read the resume set from the posts
directory, skip resumed posts, fetch and process the rest. -/
def download_profile_model (fs0 : FS) (profile_path temp_path : List String)
    (src : MediaSource) (moveOk : String → Bool) : RunState :=
  let posts_path := profile_path ++ ["posts"]
  let hash_file := profile_path ++ ["hash.txt"]
  let downloaded := get_downloaded_posts fs0 posts_path
  let st0 : RunState :=
    { files := fs0, manifest := headerLine,
      events := (src.posts.filter (fun sc => decide (sc ∈ downloaded))).map
        (fun sc => .logged ("Skip del post gia scaricato: " ++ sc)) }
  (src.posts.filter (fun sc => decide (sc ∉ downloaded))).foldl
    (runPost temp_path posts_path hash_file src moveOk) st0

/-! ## Trace predicates for the temporal claim -/

/-- Destinations and contents of the move events of a trace, most recent
first, extending an initial accumulator. -/
def movedAcc : List Event → FS → FS
  | [], s => s
  | .moved _ dst c :: rest, s => movedAcc rest ((dst, c) :: s)
  | _ :: rest, s => movedAcc rest s

/-- Scan of a trace checking that every hash event concerns a path some
earlier move event wrote, and that the digest is the MD5 of the bytes
that move placed there. -/
def hashesAfterMoves : List Event → FS → Bool
  | [], _ => true
  | .moved _ dst c :: rest, s => hashesAfterMoves rest ((dst, c) :: s)
  | .hashed p dg :: rest, s =>
    (match FS.read s p with
     | some c => decide (dg = md5hex c.toBytes)
     | none => false) && hashesAfterMoves rest s
  | _ :: rest, s => hashesAfterMoves rest s

set_option maxRecDepth 400000

/-! ## Helper lemmas: hexadecimal digests -/

/-- Every output of `hexDigit` is a hexadecimal character. -/
theorem hexDigit_mem (n : Nat) : hexDigit n ∈ hexCharList := by
  unfold hexDigit
  have hlt : n % 16 < hexCharList.length := Nat.mod_lt _ (by decide)
  rw [List.getD_eq_getElem?_getD, List.getElem?_eq_getElem hlt, Option.getD_some]
  exact List.getElem_mem hlt

/-- The digest has sixteen bytes. -/
theorem md5Digest_length (d : List Nat) : (md5Digest d).length = 16 := by
  simp [md5Digest, wordLE]

/-- Hex expansion doubles the length. -/
theorem flatten_map_byteHex_length (l : List Nat) :
    ((l.map byteHexChars).flatten).length = 2 * l.length := by
  induction l with
  | nil => rfl
  | cons hd tl ihtl =>
    simp only [List.map_cons, List.flatten_cons, List.length_append, ihtl, byteHexChars,
      List.length_cons, List.length_nil]
    omega

/-- An MD5 hex digest always has 32 characters. -/
theorem md5hex_length (d : List Nat) : (md5hex d).length = 32 := by
  show (((md5Digest d).map byteHexChars).flatten).length = 32
  rw [flatten_map_byteHex_length, md5Digest_length]

/-- Every character of an MD5 hex digest is a hexadecimal digit. -/
theorem md5hex_hex (d : List Nat) : ∀ c ∈ (md5hex d).data, c ∈ hexCharList := by
  intro c hc
  have hc2 : c ∈ ((md5Digest d).map byteHexChars).flatten := hc
  rcases List.mem_flatten.mp hc2 with ⟨l, hl, hcl⟩
  rcases List.mem_map.mp hl with ⟨b, _, rfl⟩
  simp only [byteHexChars, List.mem_cons, List.not_mem_nil, or_false] at hcl
  rcases hcl with rfl | rfl <;> exact hexDigit_mem _

/-! ## Helper lemmas: chunked reading -/

/-- Chunking then flattening is the identity (fuel version). -/
theorem chunksOfAux_flatten {α : Type} (n : Nat) (hn : 0 < n) :
    ∀ fuel (l : List α), l.length ≤ fuel → (chunksOfAux α n fuel l).flatten = l := by
  intro fuel
  induction fuel with
  | zero =>
    intro l h
    cases l with
    | nil => rfl
    | cons a t => simp at h
  | succ fuel ih =>
    intro l h
    cases l with
    | nil => rfl
    | cons a t =>
      show ((a :: t).take n :: chunksOfAux α n fuel ((a :: t).drop n)).flatten = a :: t
      rw [List.flatten_cons, ih _ ?_, List.take_append_drop]
      rw [List.length_drop]
      simp only [List.length_cons] at h ⊢
      omega

/-- Chunking then flattening is the identity. -/
theorem chunksOf_flatten {α : Type} (n : Nat) (hn : 0 < n) (l : List α) :
    (chunksOf n l).flatten = l :=
  chunksOfAux_flatten n hn l.length l (Nat.le_refl _)

/-- Feeding chunks one by one accumulates their concatenation. -/
theorem foldl_update_data (cs : List (List Nat)) :
    ∀ h0 : HashMD5, (cs.foldl HashMD5.update h0).data = h0.data ++ cs.flatten := by
  induction cs with
  | nil => intro h0; simp
  | cons c t ih =>
    intro h0
    simp [List.foldl_cons, ih, HashMD5.update, List.append_assoc]

/-- `calculate_md5` on a readable file returns the MD5 of the file's
whole byte content, the chunked reading notwithstanding. -/
theorem calculate_md5_eq (fs : FS) (p : List String) (fd : FileData)
    (h : FS.read fs p = some fd) :
    calculate_md5 fs p = .ok (md5hex fd.toBytes) := by
  unfold calculate_md5
  rw [h]
  show Except.ok (HashMD5.hexdigest _) = _
  unfold HashMD5.hexdigest
  rw [foldl_update_data]
  show Except.ok (md5hex ([] ++ (chunksOf config.CHUNK_SIZE fd.toBytes).flatten)) = _
  rw [List.nil_append, chunksOf_flatten _ (by decide)]

/-- `calculate_md5` on an unreadable path reports the `IOError`. -/
theorem calculate_md5_err (fs : FS) (p : List String) (h : FS.read fs p = none) :
    calculate_md5 fs p = .error ("IOError") := by
  unfold calculate_md5
  rw [h]

/-! ## Helper lemmas: write_hash -/

/-- Successful `write_hash`: the appended manifest line and events. -/
theorem write_hash_ok (st : RunState) (fp hf : List String) (fd : FileData)
    (h : FS.read st.files fp = some fd) :
    write_hash st fp hf =
      (true, { st with
        manifest := st.manifest ++ md5hex fd.toBytes ++ " *" ++
          renderPath (relpathAux fp hf.dropLast) ++ "\n",
        events := st.events ++ [.hashed fp (md5hex fd.toBytes),
          .logged ("Hash calcolato e salvato per: " ++ renderPath (relpathAux fp hf.dropLast))] }) := by
  unfold write_hash
  rw [calculate_md5_eq st.files fp fd h]

/-- Failing `write_hash`: `false`, manifest untouched, error logged. -/
theorem write_hash_err (st : RunState) (fp hf : List String)
    (h : FS.read st.files fp = none) :
    write_hash st fp hf =
      (false, { st with events := st.events ++
        [.logged ("Errore nel calcolo o salvataggio MD5 per " ++ renderPath fp)] }) := by
  unfold write_hash
  rw [calculate_md5_err st.files fp h]

/-! ## Claims C4 and C9 -/

/-- C4: every manifest line produced by a successful `write_hash` call has
exactly the form `"<digest> *<relative-path>\n"`, where the digest is the
32-hexadecimal-character MD5 of the artifact's on-disk bytes and the
relative path is computed relative to the manifest's directory. -/
theorem c4_manifest_line_format (st : RunState) (fp hf : List String) (fd : FileData)
    (h : FS.read st.files fp = some fd) :
    (write_hash st fp hf).1 = true ∧
    (write_hash st fp hf).2.manifest =
      st.manifest ++ (md5hex fd.toBytes ++ " *" ++ renderPath (relpathAux fp hf.dropLast) ++ "\n") ∧
    (md5hex fd.toBytes).length = 32 ∧
    (∀ c ∈ (md5hex fd.toBytes).data, c ∈ hexCharList) := by
  rw [write_hash_ok st fp hf fd h]
  refine ⟨rfl, ?_, md5hex_length _, md5hex_hex _⟩
  simp [String.append_assoc]

/-- Witness for C4 at a one-byte artifact. -/
theorem c4_manifest_line_witness :
    (write_hash ⟨[(["f"], FileData.bin [97])], "", []⟩ ["f"] ["hash.txt"]).1 = true ∧
    (write_hash ⟨[(["f"], FileData.bin [97])], "", []⟩ ["f"] ["hash.txt"]).2.manifest =
      "" ++ (md5hex (FileData.bin [97]).toBytes ++ " *" ++
        renderPath (relpathAux ["f"] (["hash.txt"] : List String).dropLast) ++ "\n") ∧
    (md5hex (FileData.bin [97]).toBytes).length = 32 ∧
    (∀ c ∈ (md5hex (FileData.bin [97]).toBytes).data, c ∈ hexCharList) :=
  c4_manifest_line_format ⟨[(["f"], FileData.bin [97])], "", []⟩ ["f"] ["hash.txt"]
    (FileData.bin [97]) (by decide)

/-- C9: `calculate_md5` is deterministic across invocations on unchanged
content, and the 8 KiB-chunked computation equals the MD5 of the file's
full byte content. -/
theorem c9_md5_chunked_deterministic (fs1 fs2 : FS) (p : List String) (fd : FileData)
    (h1 : FS.read fs1 p = some fd) (h2 : FS.read fs2 p = some fd) :
    calculate_md5 fs1 p = calculate_md5 fs2 p ∧
    calculate_md5 fs1 p = .ok (md5hex fd.toBytes) := by
  rw [calculate_md5_eq fs1 p fd h1, calculate_md5_eq fs2 p fd h2]
  exact ⟨rfl, rfl⟩

/-- Witness for C9 on the three-byte file `"abc"`, with the digest
evaluated to the well-known constant. -/
theorem c9_md5_witness :
    (calculate_md5 [(["f"], FileData.bin [97, 98, 99])] ["f"] =
        calculate_md5 [(["f"], FileData.bin [97, 98, 99])] ["f"] ∧
      calculate_md5 [(["f"], FileData.bin [97, 98, 99])] ["f"] =
        .ok (md5hex (FileData.bin [97, 98, 99]).toBytes)) ∧
    md5hex (FileData.bin [97, 98, 99]).toBytes = "900150983cd24fb0d6963f7d28e17f72" :=
  ⟨c9_md5_chunked_deterministic [(["f"], FileData.bin [97, 98, 99])]
      [(["f"], FileData.bin [97, 98, 99])] ["f"] (FileData.bin [97, 98, 99])
      (by decide) (by decide),
    by decide⟩

/-! ## Helper lemmas: filesystem -/

/-- Erasing a path makes it unreadable. -/
theorem FS.read_erase_self (fs : FS) (p : List String) :
    FS.read (FS.erase fs p) p = none := by
  induction fs with
  | nil => rfl
  | cons e rest ih =>
    obtain ⟨q, d⟩ := e
    by_cases h : q = p
    · simpa [FS.erase, List.filter_cons, h] using ih
    · simpa [FS.erase, List.filter_cons, h, FS.read] using ih

/-- Reading past an exhausted prefix. -/
theorem FS.read_append_none (l1 l2 : FS) (p : List String) (h : FS.read l1 p = none) :
    FS.read (l1 ++ l2) p = FS.read l2 p := by
  induction l1 with
  | nil => rfl
  | cons e rest ih =>
    obtain ⟨q, d⟩ := e
    by_cases hq : q = p
    · simp [FS.read, hq] at h
    · simp only [List.cons_append, FS.read, hq, if_false] at h ⊢
      exact ih h

/-- After a move, the destination holds the moved bytes. -/
theorem read_after_move (fs : FS) (src dst : List String) (c : FileData) :
    FS.read (FS.erase (FS.erase fs src) dst ++ [(dst, c)]) dst = some c := by
  rw [FS.read_append_none _ _ _ (FS.read_erase_self _ _)]
  simp [FS.read]

/-! ## Helper lemmas: trace scans -/

/-- `movedAcc` distributes over trace concatenation. -/
theorem movedAcc_append (t1 t2 : List Event) (s : FS) :
    movedAcc (t1 ++ t2) s = movedAcc t2 (movedAcc t1 s) := by
  induction t1 generalizing s with
  | nil => rfl
  | cons e rest ih => cases e <;> simp [movedAcc, ih]

/-- The hash-after-move scan splits over trace concatenation. -/
theorem hashesAfterMoves_append (t1 t2 : List Event) (s : FS) :
    hashesAfterMoves (t1 ++ t2) s =
      (hashesAfterMoves t1 s && hashesAfterMoves t2 (movedAcc t1 s)) := by
  induction t1 generalizing s with
  | nil => simp [hashesAfterMoves, movedAcc]
  | cons e rest ih => cases e <;> simp [hashesAfterMoves, movedAcc, ih, Bool.and_assoc]

/-! ## Helper lemmas: per-function event specifications -/

/-- Events and state effects of `json_to_txt`: it only transcodes or
logs, it never hashes, fetches, moves, or touches the manifest. -/
theorem json_to_txt_spec (st : RunState) (a b : List String) :
    ∃ Δ, (json_to_txt st a b).events = st.events ++ Δ ∧
      (∀ s, hashesAfterMoves Δ s = true) ∧
      (∀ p dg, Event.hashed p dg ∉ Δ) ∧
      (∀ sc, Event.fetchCall sc ∉ Δ) ∧
      (json_to_txt st a b).manifest = st.manifest := by
  unfold json_to_txt
  split
  · exact ⟨[.transcoded a b, .logged ("File convertito")], rfl,
      fun s => rfl, by simp, by simp, rfl⟩
  · exact ⟨[.logged ("Errore nella conversione")], rfl, fun s => rfl, by simp, by simp, rfl⟩

/-- Events and state effects of one `process_downloaded_files` iteration:
the trace grows by a self-contained block in which any hash event follows
the move event that wrote its path and digests exactly the moved bytes;
hash events concern only the posts directory; no media-source calls
happen; the file is either moved or its failure is logged; the manifest
only grows. -/
theorem process_one_spec (tmp pp hf : List String) (mo : String → Bool)
    (st : RunState) (f : String) :
    ∃ Δ : List Event,
      (process_one tmp pp hf mo st f).events = st.events ++ Δ ∧
      (∀ s, hashesAfterMoves Δ s = true) ∧
      (∀ p dg, Event.hashed p dg ∈ Δ → p = pp ++ [f]) ∧
      (∀ sc, Event.fetchCall sc ∉ Δ) ∧
      ((∃ q c, Event.moved q (pp ++ [f]) c ∈ Δ) ∨
        Event.logged ("Errore nello spostamento del file " ++ f) ∈ Δ) ∧
      (∃ r, (process_one tmp pp hf mo st f).manifest = st.manifest ++ r) := by
  unfold process_one
  by_cases hmo : mo f = true
  · rw [if_pos hmo]
    cases hread : FS.read st.files (tmp ++ [f]) with
    | none =>
      simp only [hread]
      exact ⟨[.logged ("Errore nello spostamento del file " ++ f)], rfl, fun s => rfl,
        by simp, by simp, Or.inr (by simp), ⟨"", by simp⟩⟩
    | some c =>
      simp only [hread, read_after_move, Option.isSome_some, if_true]
      by_cases htxt : pyEndsWith f (".txt") = true
      · rw [if_neg (not_not_intro htxt)]
        by_cases hjson : pyEndsWith f (".json") = true
        · rw [if_pos hjson]
          obtain ⟨Δ2, he2, hs2, hh2, hfc2, hm2⟩ :=
            json_to_txt_spec
              { st with
                files := FS.erase (FS.erase st.files (tmp ++ [f])) (pp ++ [f]) ++ [(pp ++ [f], c)],
                events := st.events ++ [.moved (tmp ++ [f]) (pp ++ [f]) c,
                  .logged ("File spostato: " ++ f)] }
              (pp ++ [f]) (pp ++ [pathStem f ++ ".txt"])
          refine ⟨[.moved (tmp ++ [f]) (pp ++ [f]) c, .logged ("File spostato: " ++ f)] ++ Δ2,
            ?_, ?_, ?_, ?_, ?_, ?_⟩
          · rw [he2]; simp [List.append_assoc]
          · intro s
            rw [hashesAfterMoves_append]
            rw [hs2]
            rfl
          · intro p dg hmem
            rcases List.mem_append.mp hmem with h | h
            · simp at h
            · exact absurd h (hh2 p dg)
          · intro sc hmem
            rcases List.mem_append.mp hmem with h | h
            · simp at h
            · exact hfc2 sc h
          · exact Or.inl ⟨tmp ++ [f], c, List.mem_append_left _ (by simp)⟩
          · exact ⟨"", by rw [hm2]; simp⟩
        · rw [if_neg hjson]
          exact ⟨[.moved (tmp ++ [f]) (pp ++ [f]) c, .logged ("File spostato: " ++ f)],
            rfl, fun s => rfl, by simp, by simp,
            Or.inl ⟨tmp ++ [f], c, by simp⟩, ⟨"", by simp⟩⟩
      · rw [if_pos htxt]
        rw [write_hash_ok _ _ _ c (read_after_move st.files (tmp ++ [f]) (pp ++ [f]) c)]
        refine ⟨[.moved (tmp ++ [f]) (pp ++ [f]) c, .logged ("File spostato: " ++ f),
          .hashed (pp ++ [f]) (md5hex c.toBytes),
          .logged ("Hash calcolato e salvato per: " ++
            renderPath (relpathAux (pp ++ [f]) hf.dropLast))], ?_, ?_, ?_, ?_, ?_, ?_⟩
        · simp [List.append_assoc]
        · intro s
          simp [hashesAfterMoves, FS.read]
        · intro p dg hmem
          simp only [List.mem_cons, List.not_mem_nil, or_false] at hmem
          rcases hmem with h | h | h | h <;> simp_all
        · intro sc; simp
        · exact Or.inl ⟨tmp ++ [f], c, by simp⟩
        · exact ⟨md5hex c.toBytes ++ " *" ++ renderPath (relpathAux (pp ++ [f]) hf.dropLast) ++ "\n",
            by simp [String.append_assoc]⟩
  · rw [if_neg hmo]
    exact ⟨[.logged ("Errore nello spostamento del file " ++ f)], rfl, fun s => rfl,
      by simp, by simp, Or.inr (by simp), ⟨"", by simp⟩⟩

/-- Events and state effects of folding `process_one` over a directory
listing: the lifted form of `process_one_spec`. -/
theorem foldl_process_spec (tmp pp hf : List String) (mo : String → Bool)
    (fns : List String) :
    ∀ st : RunState, ∃ Δ,
      (fns.foldl (process_one tmp pp hf mo) st).events = st.events ++ Δ ∧
      (∀ s, hashesAfterMoves Δ s = true) ∧
      (∀ p dg, Event.hashed p dg ∈ Δ → p.dropLast = pp) ∧
      (∀ sc, Event.fetchCall sc ∉ Δ) ∧
      (∀ f ∈ fns, (∃ q c, Event.moved q (pp ++ [f]) c ∈ Δ) ∨
        Event.logged ("Errore nello spostamento del file " ++ f) ∈ Δ) ∧
      (∃ r, (fns.foldl (process_one tmp pp hf mo) st).manifest = st.manifest ++ r) := by
  induction fns with
  | nil =>
    intro st
    exact ⟨[], by simp, fun s => rfl, by simp, by simp, by simp, ⟨"", by simp⟩⟩
  | cons f rest ih =>
    intro st
    obtain ⟨Δ1, he1, hs1, hh1, hfc1, hm1, hr1⟩ := process_one_spec tmp pp hf mo st f
    obtain ⟨Δ2, he2, hs2, hh2, hfc2, hm2, hr2⟩ := ih (process_one tmp pp hf mo st f)
    refine ⟨Δ1 ++ Δ2, ?_, ?_, ?_, ?_, ?_, ?_⟩
    · rw [List.foldl_cons, he2, he1, List.append_assoc]
    · intro s
      rw [hashesAfterMoves_append, hs1 s, hs2]
      rfl
    · intro p dg hmem
      rcases List.mem_append.mp hmem with h | h
      · rw [hh1 p dg h]
        exact List.dropLast_concat
      · exact hh2 p dg h
    · intro sc hmem
      rcases List.mem_append.mp hmem with h | h
      · exact hfc1 sc h
      · exact hfc2 sc h
    · intro g hg
      rcases List.mem_cons.mp hg with rfl | hg
    
      · rcases hm1 with ⟨q, c, hq⟩ | hl
        · exact Or.inl ⟨q, c, List.mem_append_left _ hq⟩
        · exact Or.inr (List.mem_append_left _ hl)
      · rcases hm2 g hg with ⟨q, c, hq⟩ | hl
        · exact Or.inl ⟨q, c, List.mem_append_right _ hq⟩
        · exact Or.inr (List.mem_append_right _ hl)
    · obtain ⟨r1, hr1e⟩ := hr1
      obtain ⟨r2, hr2e⟩ := hr2
      exact ⟨r1 ++ r2, by rw [List.foldl_cons, hr2e, hr1e, String.append_assoc]⟩

/-! ## Claims C5, C7 and C1 -/

/-- C5: every digest recorded while processing downloaded files is
computed from the file's bytes at its final destination path strictly
after the move completed: the trace scan finds, before each hash event, a
move event that wrote the hashed path with exactly the digested bytes;
and every hashed path lies in the posts directory, never in staging. -/
theorem c5_hash_after_move (st : RunState) (tmp pp hf : List String) (mo : String → Bool)
    (h0 : st.events = []) (hne : tmp ≠ pp) :
    hashesAfterMoves (process_downloaded_files st tmp pp hf mo).events [] = true ∧
    (∀ p dg, Event.hashed p dg ∈ (process_downloaded_files st tmp pp hf mo).events →
      p.dropLast = pp ∧ p.dropLast ≠ tmp) := by
  unfold process_downloaded_files
  obtain ⟨Δ, he, hs, hh, _, _, _⟩ := foldl_process_spec tmp pp hf mo (listdir st.files tmp) st
  rw [he, h0, List.nil_append]
  refine ⟨hs [], ?_⟩
  intro p dg hmem
  have hp := hh p dg hmem
  exact ⟨hp, by rw [hp]; exact Ne.symm hne⟩

/-- Witness for C5 at a staging directory with one image file. -/
theorem c5_hash_after_move_witness :
    hashesAfterMoves (process_downloaded_files
      ⟨[(["t", "a.jpg"], FileData.bin [1])], "", []⟩ ["t"] ["p"] ["h"]
      (fun _ => true)).events [] = true ∧
    (∀ p dg, Event.hashed p dg ∈ (process_downloaded_files
        ⟨[(["t", "a.jpg"], FileData.bin [1])], "", []⟩ ["t"] ["p"] ["h"]
        (fun _ => true)).events →
      p.dropLast = ["p"] ∧ p.dropLast ≠ ["t"]) :=
  c5_hash_after_move ⟨[(["t", "a.jpg"], FileData.bin [1])], "", []⟩ ["t"] ["p"] ["h"]
    (fun _ => true) rfl (by decide)

/-- C7: per-file failures are non-fatal and independent: `write_hash`
returns `false` exactly when the file is unreadable (and then leaves the
manifest untouched and logs the error), and in `process_downloaded_files`
every listed staging file is either moved or has its failure logged —
one file's failure never prevents the rest from being processed. -/
theorem c7_per_file_failures_nonfatal (st : RunState) (fp hf tmp pp : List String)
    (mo : String → Bool) :
    ((write_hash st fp hf).1 = false ↔ FS.read st.files fp = none) ∧
    (FS.read st.files fp = none →
      (write_hash st fp hf).2.manifest = st.manifest ∧
      Event.logged ("Errore nel calcolo o salvataggio MD5 per " ++ renderPath fp) ∈
        (write_hash st fp hf).2.events) ∧
    (∀ f ∈ listdir st.files tmp,
      (∃ q c, Event.moved q (pp ++ [f]) c ∈ (process_downloaded_files st tmp pp hf mo).events) ∨
      Event.logged ("Errore nello spostamento del file " ++ f) ∈
        (process_downloaded_files st tmp pp hf mo).events) := by
  refine ⟨?_, ?_, ?_⟩
  · cases hread : FS.read st.files fp with
    | none => rw [write_hash_err st fp hf hread]; simp
    | some fd => rw [write_hash_ok st fp hf fd hread]; simp
  · intro hread
    rw [write_hash_err st fp hf hread]
    exact ⟨rfl, by simp⟩
  · intro f hf2
    unfold process_downloaded_files
    obtain ⟨Δ, he, _, _, _, hm, _⟩ := foldl_process_spec tmp pp hf mo (listdir st.files tmp) st
    rw [he]
    rcases hm f hf2 with ⟨q, c, hq⟩ | hl
    · exact Or.inl ⟨q, c, List.mem_append_right _ hq⟩
    · exact Or.inr (List.mem_append_right _ hl)

/-- Witness for C7: a missing file makes `write_hash` return `false`,
log the failure and leave the manifest untouched. -/
theorem c7_nonfatal_witness :
    (write_hash ⟨[], "", []⟩ ["nofile"] ["h"]).1 = false ∧
    (write_hash ⟨[], "", []⟩ ["nofile"] ["h"]).2.manifest = "" ∧
    Event.logged ("Errore nel calcolo o salvataggio MD5 per " ++ renderPath ["nofile"]) ∈
      (write_hash ⟨[], "", []⟩ ["nofile"] ["h"]).2.events := by
  have h := c7_per_file_failures_nonfatal ⟨[], "", []⟩ ["nofile"] ["h"] ["t"] ["p"] (fun _ => true)
  exact ⟨h.1.mpr (by decide), (h.2.1 (by decide)).1, (h.2.1 (by decide)).2⟩

/-- C1 (code bug): with staging holding the metadata document `m.json`
and the plain-text file `b.txt`, the run moves and HASHES the JSON
document and never transcodes anything — the `elif` guarding
`json_to_txt` only runs for names ending in `.txt`, so it is unreachable
for `.json` files — hence no `m.txt` is produced; the `.txt` file is
neither hashed nor transcoded, as the claim also states. -/
theorem c1_json_files_hashed_not_transcoded :
    (let stR := process_downloaded_files
      ⟨[(["t", "m.json"], FileData.doc [("caption", JsonVal.s "hello")]),
        (["t", "b.txt"], FileData.txt "x")], "", []⟩ ["t"] ["p"] ["h"] (fun _ => true)
    (stR.events.filter (fun e => match e with | .transcoded _ _ => true | _ => false)) = [] ∧
    (stR.events.filter (fun e => match e with
      | .hashed p _ => decide (p = ["p", "m.json"]) | _ => false)).length = 1 ∧
    (stR.events.filter (fun e => match e with
      | .hashed p _ => decide (p = ["p", "b.txt"]) | _ => false)) = [] ∧
    FS.read stR.files ["p", "m.txt"] = none) := by
  decide

/-! ## Claim C8 -/

/-- Folding string appends from any accumulator prepends it. -/
theorem string_foldl_append (xs : List String) :
    ∀ a b : String, xs.foldl (fun r s => r ++ s) (a ++ b) = a ++ xs.foldl (fun r s => r ++ s) b := by
  induction xs with
  | nil => intro a b; rfl
  | cons x t ih =>
    intro a b
    simp only [List.foldl_cons]
    rw [String.append_assoc, ih]

/-- `String.join` peels its head. -/
theorem string_join_cons (x : String) (xs : List String) :
    String.join (x :: xs) = x ++ String.join xs := by
  show (x :: xs).foldl (fun r s => r ++ s) ("") = x ++ xs.foldl (fun r s => r ++ s) ("")
  simp only [List.foldl_cons]
  have h := string_foldl_append xs x ""
  simpa using h

/-- The transcoder output is the concatenation of one rendered line per
key, in document order. -/
theorem renderDoc_lines (d : List (String × JsonVal)) :
    renderDoc d = String.join (d.map (fun kv => kv.1 ++ ": " ++ pyStr kv.2 ++ "\n")) := by
  suffices h : ∀ a : String,
      d.foldl (fun acc kv => acc ++ kv.1 ++ ": " ++ pyStr kv.2 ++ "\n") a =
        a ++ String.join (d.map (fun kv => kv.1 ++ ": " ++ pyStr kv.2 ++ "\n")) by
    simpa [renderDoc] using h ""
  induction d with
  | nil => intro a; simp [String.join]
  | cons kv t ih =>
    intro a
    simp only [List.foldl_cons, List.map_cons]
    rw [ih, string_join_cons]
    simp [String.append_assoc]

/-- C8: for a metadata document that is a key-to-value mapping,
`json_to_txt` writes exactly one `"<key>: <value>"` line per key in the
document's own order; in particular the two-key example document yields
exactly `"caption: hello\nlikes: 5\n"`. -/
theorem c8_transcoder_lines (st : RunState) (a b : List String) (d : List (String × JsonVal))
    (h : FS.read st.files a = some (.doc d)) :
    FS.read (json_to_txt st a b).files b = some (.txt (renderDoc d)) ∧
    renderDoc d = String.join (d.map (fun kv => kv.1 ++ ": " ++ pyStr kv.2 ++ "\n")) ∧
    renderDoc [("caption", JsonVal.s "hello"), ("likes", JsonVal.i 5)] =
      "caption: hello\nlikes: 5\n" := by
  refine ⟨?_, renderDoc_lines d, by decide⟩
  unfold json_to_txt
  rw [h]
  show FS.read (FS.erase st.files b ++ [(b, .txt (renderDoc d))]) b = _
  rw [FS.read_append_none _ _ _ (FS.read_erase_self _ _)]
  simp [FS.read]

/-- Witness for C8 on the example document from the specification. -/
theorem c8_transcoder_witness :
    FS.read (json_to_txt
      ⟨[(["m.json"], FileData.doc [("caption", JsonVal.s "hello"), ("likes", JsonVal.i 5)])],
        "", []⟩ ["m.json"] ["m.txt"]).files ["m.txt"] =
      some (.txt (renderDoc [("caption", JsonVal.s "hello"), ("likes", JsonVal.i 5)])) ∧
    renderDoc [("caption", JsonVal.s "hello"), ("likes", JsonVal.i 5)] =
      "caption: hello\nlikes: 5\n" := by
  have h := c8_transcoder_lines
    ⟨[(["m.json"], FileData.doc [("caption", JsonVal.s "hello"), ("likes", JsonVal.i 5)])],
      "", []⟩ ["m.json"] ["m.txt"]
    [("caption", JsonVal.s "hello"), ("likes", JsonVal.i 5)] (by decide)
  exact ⟨h.1, h.2.2⟩

/-! ## Claim C10 (corrected) -/

/-- C10 counterexample: a bare username is nonempty string input, yet
`validate_profile_url` raises `ValueError` on it — the claim that it
accepts bare usernames and raises only on empty or non-string input is
false on the code. -/
theorem c10_bare_username_rejected_cex :
    validate_profile_url (PyInput.str ("alice")) = .error ("URL Instagram non valido") ∧
    ("alice" : String) ≠ "" := ⟨rfl, by decide⟩

/-- C10 amended: `validate_profile_url` accepts exactly the strings
starting with one of the four Instagram prefixes, returning the last
slash-separated segment after stripping trailing slashes; it raises
`ValueError` for empty input, non-string input, and any other string —
bare usernames included. -/
theorem c10_url_validation_amended :
    (∀ s : String, s ≠ "" → valid_prefixes.any (fun p => pyStartsWith s p) = true →
      validate_profile_url (.str s) = .ok ((pySplit (rstripSlash s) '/').getLastD (""))) ∧
    (∀ s : String, s ≠ "" → valid_prefixes.any (fun p => pyStartsWith s p) = false →
      validate_profile_url (.str s) = .error ("URL Instagram non valido")) ∧
    validate_profile_url .nonStr = .error ("URL non valido") ∧
    validate_profile_url (.str "") = .error ("URL non valido") := by
  refine ⟨?_, ?_, rfl, rfl⟩
  · intro s hs hpre
    simp only [validate_profile_url]
    rw [if_neg hs, if_neg (not_not_intro hpre)]
  · intro s hs hpre
    simp only [validate_profile_url]
    rw [if_neg hs, if_pos (by rw [hpre]; exact Bool.false_ne_true)]

/-- Witness for C10 on a full profile URL with a trailing slash. -/
theorem c10_url_validation_witness :
    validate_profile_url (.str ("https://www.instagram.com/alice/")) = .ok ("alice") := by
  have h := c10_url_validation_amended.1 ("https://www.instagram.com/alice/")
    (by decide) (by decide)
  rw [h]
  rfl

/-! ## Helper lemmas: retry with backoff -/

/-- The exponential-backoff delay is monotone in the attempt number. -/
theorem wait_exponential_mono (mult minW maxW : Nat) {n m : Nat} (h : n ≤ m) :
    wait_exponential mult minW maxW n ≤ wait_exponential mult minW maxW m := by
  have h2 : mult * 2 ^ n ≤ mult * 2 ^ m :=
    Nat.mul_le_mul_left _ (Nat.pow_le_pow_right (by norm_num) h)
  unfold wait_exponential
  exact max_le_max (le_refl minW) (min_le_min h2 (le_refl maxW))

/-- The recorded backoff delays are the waits of consecutive attempt
numbers starting at `n`. -/
theorem tenacityGo_waits (att : Nat → Bool) (stopN : Nat) (w : Nat → Nat) :
    ∀ fuel n ws, ∃ k, (tenacityGo att stopN w fuel n ws).waits =
      ws ++ (List.range k).map (fun i => w (n + i)) := by
  intro fuel
  induction fuel with
  | zero => intro n ws; exact ⟨0, by simp [tenacityGo]⟩
  | succ fuel ih =>
    intro n ws
    unfold tenacityGo
    by_cases h1 : att n = true
    · rw [if_pos h1]; exact ⟨0, by simp⟩
    · rw [if_neg h1]
      by_cases h2 : stopN ≤ n
      · rw [if_pos h2]; exact ⟨0, by simp⟩
      · rw [if_neg h2]
        obtain ⟨k, hk⟩ := ih (n + 1) (ws ++ [w n])
        refine ⟨k + 1, ?_⟩
        rw [hk, List.append_assoc]
        congr 1
        rw [List.range_succ_eq_map, List.map_cons, List.map_map]
        simp only [List.cons_append, List.nil_append, Nat.add_zero]
        congr 1
        apply List.map_congr_left
        intro i _
        simp only [Function.comp_apply]
        congr 1
        omega

/-- Consecutive backoff delays never decrease. -/
theorem tenacityRun_waits_mono (att : Nat → Bool) (stopN mult minW maxW : Nat) :
    List.Chain' (fun x y => x ≤ y)
      (tenacityRun att stopN (wait_exponential mult minW maxW)).waits := by
  obtain ⟨k, hk⟩ := tenacityGo_waits att stopN (wait_exponential mult minW maxW) stopN 1 []
  unfold tenacityRun
  rw [hk, List.nil_append]
  exact ((List.pairwise_lt_range k).map _
    (fun a b hab => wait_exponential_mono mult minW maxW (by omega))).chain'

/-- An always-failing call is attempted exactly three times, with the two
inter-attempt delays recorded. -/
theorem tenacity_allfail (att : Nat → Bool) (w : Nat → Nat) (h : ∀ n, att n = false) :
    tenacityRun att 3 w = ⟨false, 3, [w 1, w 2]⟩ := by
  simp [tenacityRun, tenacityGo, h]

/-- With fuel available, the attempt counter never goes backwards. -/
theorem tenacityGo_attempts_ge (att : Nat → Bool) (stopN : Nat) (w : Nat → Nat) :
    ∀ fuel n ws, 1 ≤ fuel → n ≤ (tenacityGo att stopN w fuel n ws).attempts := by
  intro fuel
  induction fuel with
  | zero => intro n ws h; exact absurd h (by omega)
  | succ fuel ih =>
    intro n ws _
    unfold tenacityGo
    by_cases h1 : att n = true
    · rw [if_pos h1]
    · rw [if_neg h1]
      by_cases h2 : stopN ≤ n
      · rw [if_pos h2]
      · rw [if_neg h2]
        cases fuel with
        | zero => show n ≤ n + 1 - 1; omega
        | succ fuel2 => exact Nat.le_of_succ_le (ih (n + 1) (ws ++ [w n]) (by omega))

/-- A call that fails on every attempt is never reported successful. -/
theorem tenacityGo_allfail_ok (att : Nat → Bool) (stopN : Nat) (w : Nat → Nat)
    (h : ∀ n, att n = false) :
    ∀ fuel n ws, (tenacityGo att stopN w fuel n ws).ok = false := by
  intro fuel
  induction fuel with
  | zero => intro n ws; rfl
  | succ fuel ih =>
    intro n ws
    unfold tenacityGo
    rw [if_neg (by rw [h n]; exact Bool.false_ne_true)]
    by_cases h2 : stopN ≤ n
    · rw [if_pos h2]
    · rw [if_neg h2]; exact ih _ _

/-! ## Helper lemmas: the orchestrator -/

/-- `process_downloaded_files` only appends events, never a media-source
call, and only grows the manifest. -/
theorem process_files_spec (st : RunState) (tmp pp hf : List String) (mo : String → Bool) :
    ∃ Δ, (process_downloaded_files st tmp pp hf mo).events = st.events ++ Δ ∧
      (∀ sc, Event.fetchCall sc ∉ Δ) ∧
      (∃ r, (process_downloaded_files st tmp pp hf mo).manifest = st.manifest ++ r) := by
  unfold process_downloaded_files
  obtain ⟨Δ, he, _, _, hfc, _, hr⟩ := foldl_process_spec tmp pp hf mo (listdir st.files tmp) st
  exact ⟨Δ, he, hfc, hr⟩

/-- Unfolding of `runPost` with its let-bindings resolved. -/
theorem runPost_eq (tmp pp hf : List String) (src : MediaSource) (mo : String → Bool)
    (st : RunState) (sc : String) :
    runPost tmp pp hf src mo st sc =
      process_downloaded_files
        (if (tenacityRun (src.att sc) config.RETRY_ATTEMPTS (wait_exponential 1 4 10)).ok then
          { st with
            files := st.files ++ (src.staged sc).map (fun fd => (tmp ++ [fd.1], fd.2)),
            events := st.events ++ List.replicate
              (tenacityRun (src.att sc) config.RETRY_ATTEMPTS (wait_exponential 1 4 10)).attempts
              (Event.fetchCall sc) }
        else
          { st with
            events := st.events ++ List.replicate
              (tenacityRun (src.att sc) config.RETRY_ATTEMPTS (wait_exponential 1 4 10)).attempts
              (Event.fetchCall sc) ++ [Event.logged ("Errore nel download: " ++ sc)] })
        tmp pp hf mo := rfl

/-- Events and state effects of `runPost`: every media-source call in the
added block is for this post; at least one call is made; exhaustion of an
always-failing fetch is logged; the manifest only grows. -/
theorem runPost_spec (tmp pp hf : List String) (src : MediaSource) (mo : String → Bool)
    (st : RunState) (sc : String) :
    ∃ Δ, (runPost tmp pp hf src mo st sc).events = st.events ++ Δ ∧
      (∀ q, Event.fetchCall q ∈ Δ → q = sc) ∧
      Event.fetchCall sc ∈ Δ ∧
      ((∀ n, src.att sc n = false) →
        Event.logged ("Errore nel download: " ++ sc) ∈ Δ) ∧
      (∃ r, (runPost tmp pp hf src mo st sc).manifest = st.manifest ++ r) := by
  have hA : 1 ≤ (tenacityRun (src.att sc) config.RETRY_ATTEMPTS
      (wait_exponential 1 4 10)).attempts :=
    tenacityGo_attempts_ge _ _ _ config.RETRY_ATTEMPTS 1 [] (by decide)
  rw [runPost_eq]
  by_cases hok : (tenacityRun (src.att sc) config.RETRY_ATTEMPTS (wait_exponential 1 4 10)).ok = true
  · rw [if_pos hok]
    obtain ⟨Δ2, he2, hfc2, r2, hr2⟩ := process_files_spec
      { st with
        files := st.files ++ (src.staged sc).map (fun fd => (tmp ++ [fd.1], fd.2)),
        events := st.events ++ List.replicate
          (tenacityRun (src.att sc) config.RETRY_ATTEMPTS (wait_exponential 1 4 10)).attempts
          (Event.fetchCall sc) } tmp pp hf mo
    refine ⟨List.replicate
        (tenacityRun (src.att sc) config.RETRY_ATTEMPTS (wait_exponential 1 4 10)).attempts
        (Event.fetchCall sc) ++ Δ2, ?_, ?_, ?_, ?_, ?_⟩
    · rw [he2, List.append_assoc]
    · intro q hq
      rcases List.mem_append.mp hq with h | h
      · exact Event.fetchCall.inj (List.mem_replicate.mp h).2
      · exact absurd h (hfc2 q)
    · exact List.mem_append_left _ (List.mem_replicate.mpr ⟨by omega, rfl⟩)
    · intro hfail
      have h2 : (tenacityRun (src.att sc) config.RETRY_ATTEMPTS
          (wait_exponential 1 4 10)).ok = false :=
        tenacityGo_allfail_ok (src.att sc) config.RETRY_ATTEMPTS
          (wait_exponential 1 4 10) hfail config.RETRY_ATTEMPTS 1 []
      exact absurd hok (by rw [h2]; exact Bool.false_ne_true)
    · exact ⟨r2, hr2⟩
  · rw [if_neg hok]
    obtain ⟨Δ2, he2, hfc2, r2, hr2⟩ := process_files_spec
      { st with
        events := st.events ++ List.replicate
          (tenacityRun (src.att sc) config.RETRY_ATTEMPTS (wait_exponential 1 4 10)).attempts
          (Event.fetchCall sc) ++ [Event.logged ("Errore nel download: " ++ sc)] } tmp pp hf mo
    refine ⟨(List.replicate
        (tenacityRun (src.att sc) config.RETRY_ATTEMPTS (wait_exponential 1 4 10)).attempts
        (Event.fetchCall sc) ++ [Event.logged ("Errore nel download: " ++ sc)]) ++ Δ2,
      ?_, ?_, ?_, ?_, ?_⟩
    · rw [he2]
      simp [List.append_assoc]
    · intro q hq
      rcases List.mem_append.mp hq with h | h
      · rcases List.mem_append.mp h with h2 | h2
        · exact Event.fetchCall.inj (List.mem_replicate.mp h2).2
        · simp at h2
      · exact absurd h (hfc2 q)
    · exact List.mem_append_left _
        (List.mem_append_left _ (List.mem_replicate.mpr ⟨by omega, rfl⟩))
    · intro _
      exact List.mem_append_left _ (List.mem_append_right _ (by simp))
    · exact ⟨r2, hr2⟩

/-- The lifted form of `runPost_spec` over a list of submitted posts. -/
theorem foldl_runPost_spec (tmp pp hf : List String) (src : MediaSource) (mo : String → Bool)
    (scs : List String) :
    ∀ st : RunState, ∃ Δ,
      (scs.foldl (runPost tmp pp hf src mo) st).events = st.events ++ Δ ∧
      (∀ q, Event.fetchCall q ∈ Δ → q ∈ scs) ∧
      (∀ sc ∈ scs, Event.fetchCall sc ∈ Δ) ∧
      (∀ sc ∈ scs, (∀ n, src.att sc n = false) →
        Event.logged ("Errore nel download: " ++ sc) ∈ Δ) ∧
      (∃ r, (scs.foldl (runPost tmp pp hf src mo) st).manifest = st.manifest ++ r) := by
  induction scs with
  | nil =>
    intro st
    exact ⟨[], by simp, by simp, by simp, by simp, ⟨"", by simp⟩⟩
  | cons sc rest ih =>
    intro st
    obtain ⟨Δ1, he1, hq1, hm1, hl1, hr1⟩ := runPost_spec tmp pp hf src mo st sc
    obtain ⟨Δ2, he2, hq2, hm2, hl2, hr2⟩ := ih (runPost tmp pp hf src mo st sc)
    refine ⟨Δ1 ++ Δ2, ?_, ?_, ?_, ?_, ?_⟩
    · rw [List.foldl_cons, he2, he1, List.append_assoc]
    · intro q hq
      rcases List.mem_append.mp hq with h | h
      · exact (hq1 q h) ▸ List.mem_cons_self _ _
      · exact List.mem_cons_of_mem _ (hq2 q h)
    · intro q hqmem
      rcases List.mem_cons.mp hqmem with rfl | hqr
      · exact List.mem_append_left _ hm1
      · exact List.mem_append_right _ (hm2 q hqr)
    · intro q hqmem hfail
      rcases List.mem_cons.mp hqmem with rfl | hqr
      · exact List.mem_append_left _ (hl1 hfail)
      · exact List.mem_append_right _ (hl2 q hqr hfail)
    · obtain ⟨r1, hr1e⟩ := hr1
      obtain ⟨r2, hr2e⟩ := hr2
      exact ⟨r1 ++ r2, by rw [List.foldl_cons, hr2e, hr1e, String.append_assoc]⟩

/-- Unfolding of `download_profile_model` with its let-bindings resolved. -/
theorem download_profile_model_eq (fs0 : FS) (pp tmp : List String) (src : MediaSource)
    (mo : String → Bool) :
    download_profile_model fs0 pp tmp src mo =
      (src.posts.filter
          (fun sc => decide (sc ∉ get_downloaded_posts fs0 (pp ++ ["posts"])))).foldl
        (runPost tmp (pp ++ ["posts"]) (pp ++ ["hash.txt"]) src mo)
        { files := fs0, manifest := headerLine,
          events := (src.posts.filter
            (fun sc => decide (sc ∈ get_downloaded_posts fs0 (pp ++ ["posts"])))).map
            (fun sc => .logged ("Skip del post gia scaricato: " ++ sc)) } := rfl

/-! ## Claims C2, C3 and C6 -/

/-- C2: `get_downloaded_posts` returns exactly the set of prefixes before
the first underscore of the stems of the `*.jpg` files present; the
orchestrator submits no fetch for any post whose short code is in that
set; and when every post of the profile is already captured, no
media-source call happens at all and each post is logged as skipped. -/
theorem c2_resume_set_and_skip (fs0 : FS) (pp tmp : List String) (src : MediaSource)
    (mo : String → Bool) :
    (∀ x, x ∈ get_downloaded_posts fs0 (pp ++ ["posts"]) ↔
      ∃ f, f ∈ listdir fs0 (pp ++ ["posts"]) ∧ pyEndsWith f (".jpg") = true ∧
        x = (pySplit (pathStem f) '_').headD ("")) ∧
    (∀ sc, sc ∈ src.posts → sc ∈ get_downloaded_posts fs0 (pp ++ ["posts"]) →
      Event.fetchCall sc ∉ (download_profile_model fs0 pp tmp src mo).events) ∧
    ((∀ sc ∈ src.posts, sc ∈ get_downloaded_posts fs0 (pp ++ ["posts"])) →
      (∀ q, Event.fetchCall q ∉ (download_profile_model fs0 pp tmp src mo).events) ∧
      (∀ sc ∈ src.posts,
        Event.logged ("Skip del post gia scaricato: " ++ sc) ∈
          (download_profile_model fs0 pp tmp src mo).events)) := by
  refine ⟨?_, ?_, ?_⟩
  · intro x
    unfold get_downloaded_posts
    constructor
    · intro hx
      obtain ⟨f, hf, hfx⟩ := List.mem_map.mp hx
      obtain ⟨hf1, hf2⟩ := List.mem_filter.mp hf
      exact ⟨f, hf1, hf2, hfx.symm⟩
    · rintro ⟨f, hf1, hf2, rfl⟩
      exact List.mem_map.mpr ⟨f, List.mem_filter.mpr ⟨hf1, hf2⟩, rfl⟩
  · intro sc hposts hdl hmem
    rw [download_profile_model_eq] at hmem
    obtain ⟨Δ, he, hq, _, _, _⟩ := foldl_runPost_spec tmp (pp ++ ["posts"]) (pp ++ ["hash.txt"])
      src mo
      (src.posts.filter (fun sc => decide (sc ∉ get_downloaded_posts fs0 (pp ++ ["posts"]))))
      { files := fs0, manifest := headerLine,
        events := (src.posts.filter
          (fun sc => decide (sc ∈ get_downloaded_posts fs0 (pp ++ ["posts"])))).map
          (fun sc => .logged ("Skip del post gia scaricato: " ++ sc)) }
    rw [he] at hmem
    rcases List.mem_append.mp hmem with h | h
    · obtain ⟨a, _, heq⟩ := List.mem_map.mp h
      simp at heq
    · have hsub := hq sc h
      have := List.of_mem_filter hsub
      rw [decide_eq_true_eq] at this
      exact this hdl
  · intro hall
    have hsub : (src.posts.filter
        (fun sc => decide (sc ∉ get_downloaded_posts fs0 (pp ++ ["posts"])))) = [] := by
      rw [List.filter_eq_nil_iff]
      intro a ha
      simp [hall a ha]
    have hskip : (src.posts.filter
        (fun sc => decide (sc ∈ get_downloaded_posts fs0 (pp ++ ["posts"])))) = src.posts :=
      List.filter_eq_self.mpr (fun a ha => by simp [hall a ha])
    constructor
    · intro q hmem
      rw [download_profile_model_eq, hsub, List.foldl_nil] at hmem
      obtain ⟨a, _, heq⟩ := List.mem_map.mp hmem
      simp at heq
    · intro sc hmemp
      rw [download_profile_model_eq, hsub, List.foldl_nil]
      show Event.logged _ ∈ (src.posts.filter _).map _
      rw [hskip]
      exact List.mem_map.mpr ⟨sc, hmemp, rfl⟩

/-- Witness for C2: one fully captured post, skipped with no fetch. -/
theorem c2_resume_witness :
    (∀ q, Event.fetchCall q ∉ (download_profile_model
      [(["pr", "posts", "ABC_1.jpg"], FileData.bin [1])] ["pr"] ["t"]
      ⟨["ABC"], fun _ _ => true, fun _ => []⟩ (fun _ => true)).events) ∧
    (∀ sc ∈ (["ABC"] : List String),
      Event.logged ("Skip del post gia scaricato: " ++ sc) ∈
        (download_profile_model [(["pr", "posts", "ABC_1.jpg"], FileData.bin [1])] ["pr"] ["t"]
          ⟨["ABC"], fun _ _ => true, fun _ => []⟩ (fun _ => true)).events) :=
  (c2_resume_set_and_skip [(["pr", "posts", "ABC_1.jpg"], FileData.bin [1])] ["pr"] ["t"]
    ⟨["ABC"], fun _ _ => true, fun _ => []⟩ (fun _ => true)).2.2 (by decide)

/-- C3: a post whose fetch always fails is attempted exactly
`RETRY_ATTEMPTS = 3` times with backoff delays 4 and 4; backoff delays
are always monotonically nondecreasing; after exhaustion the failure is
logged in the run and every other submitted post still gets its
media-source calls — the run continues rather than aborting. -/
theorem c3_retry_exhaustion_and_continue (fs0 : FS) (pp tmp : List String)
    (src : MediaSource) (mo : String → Bool) (sc : String)
    (hmem : sc ∈ src.posts)
    (hfail : ∀ n, src.att sc n = false)
    (hnew : sc ∉ get_downloaded_posts fs0 (pp ++ ["posts"])) :
    tenacityRun (src.att sc) config.RETRY_ATTEMPTS (wait_exponential 1 4 10) =
      ⟨false, 3, [4, 4]⟩ ∧
    (∀ (att2 : Nat → Bool) (stopN mult minW maxW : Nat),
      List.Chain' (fun x y => x ≤ y)
        (tenacityRun att2 stopN (wait_exponential mult minW maxW)).waits) ∧
    Event.logged ("Errore nel download: " ++ sc) ∈
      (download_profile_model fs0 pp tmp src mo).events ∧
    (∀ q ∈ src.posts, q ∉ get_downloaded_posts fs0 (pp ++ ["posts"]) →
      Event.fetchCall q ∈ (download_profile_model fs0 pp tmp src mo).events) := by
  obtain ⟨Δ, he, _, hfc, hlog, _⟩ := foldl_runPost_spec tmp (pp ++ ["posts"])
    (pp ++ ["hash.txt"]) src mo
    (src.posts.filter (fun sc => decide (sc ∉ get_downloaded_posts fs0 (pp ++ ["posts"]))))
    { files := fs0, manifest := headerLine,
      events := (src.posts.filter
        (fun sc => decide (sc ∈ get_downloaded_posts fs0 (pp ++ ["posts"])))).map
        (fun sc => .logged ("Skip del post gia scaricato: " ++ sc)) }
  refine ⟨?_, ?_, ?_, ?_⟩
  · rw [show config.RETRY_ATTEMPTS = 3 from rfl, tenacity_allfail (src.att sc) _ hfail]
    decide
  · intro att2 stopN mult minW maxW
    exact tenacityRun_waits_mono att2 stopN mult minW maxW
  · rw [download_profile_model_eq, he]
    exact List.mem_append_right _
      (hlog sc (List.mem_filter.mpr ⟨hmem, by simp [hnew]⟩) hfail)
  · intro q hq hqnew
    rw [download_profile_model_eq, he]
    exact List.mem_append_right _ (hfc q (List.mem_filter.mpr ⟨hq, by simp [hqnew]⟩))

/-- Witness for C3: two posts, the first always failing. -/
theorem c3_retry_witness :
    tenacityRun ((⟨["AAA", "BBB"], fun _ _ => false, fun _ => []⟩ : MediaSource).att "AAA")
      config.RETRY_ATTEMPTS (wait_exponential 1 4 10) = ⟨false, 3, [4, 4]⟩ ∧
    Event.logged ("Errore nel download: " ++ "AAA") ∈
      (download_profile_model [] ["pr"] ["t"]
        ⟨["AAA", "BBB"], fun _ _ => false, fun _ => []⟩ (fun _ => true)).events ∧
    Event.fetchCall "BBB" ∈
      (download_profile_model [] ["pr"] ["t"]
        ⟨["AAA", "BBB"], fun _ _ => false, fun _ => []⟩ (fun _ => true)).events := by
  have h := c3_retry_exhaustion_and_continue [] ["pr"] ["t"]
    ⟨["AAA", "BBB"], fun _ _ => false, fun _ => []⟩ (fun _ => true) "AAA"
    (by decide) (fun n => rfl) (by decide)
  exact ⟨h.1, h.2.2.1, h.2.2.2 "BBB" (by decide) (by decide)⟩

/-- C6: the manifest is truncated and header-initialized exactly once at
the start of every run — its final content always extends the single
header line — and a run over a profile with zero posts leaves the
manifest holding exactly the header line and no entries. -/
theorem c6_manifest_header_init (fs0 : FS) (pp tmp : List String) (src : MediaSource)
    (mo : String → Bool) :
    (∃ rest, (download_profile_model fs0 pp tmp src mo).manifest = headerLine ++ rest) ∧
    (src.posts = [] → (download_profile_model fs0 pp tmp src mo).manifest = headerLine) := by
  constructor
  · obtain ⟨Δ, _, _, _, _, r, hr⟩ := foldl_runPost_spec tmp (pp ++ ["posts"])
      (pp ++ ["hash.txt"]) src mo
      (src.posts.filter (fun sc => decide (sc ∉ get_downloaded_posts fs0 (pp ++ ["posts"]))))
      { files := fs0, manifest := headerLine,
        events := (src.posts.filter
          (fun sc => decide (sc ∈ get_downloaded_posts fs0 (pp ++ ["posts"])))).map
          (fun sc => .logged ("Skip del post gia scaricato: " ++ sc)) }
    rw [download_profile_model_eq]
    exact ⟨r, hr⟩
  · intro hzero
    rw [download_profile_model_eq, hzero]
    rfl

/-- Witness for C6 on a zero-post profile with a nonempty prior
filesystem. -/
theorem c6_manifest_header_witness :
    (download_profile_model [(["pr", "hash.txt"], FileData.txt "old")] ["pr"] ["t"]
      ⟨[], fun _ _ => true, fun _ => []⟩ (fun _ => true)).manifest = headerLine :=
  (c6_manifest_header_init [(["pr", "hash.txt"], FileData.txt "old")] ["pr"] ["t"]
    ⟨[], fun _ _ => true, fun _ => []⟩ (fun _ => true)).2 rfl
